import Mathlib

/-!
Verification development for MTG10X (`src/mtglink.py`), a gap-filling
pipeline for draft genome assemblies.  The definitions below are a shallow
embedding of the per-gap orchestration code of `mtglink.py`: the quality
acceptance test (lines 438-475), the k-mer / abundance parameter sweep of
`gapfilling` (lines 245-527), the top-level GFA output writing (lines
533-595), the reference-file selection (lines 311-349), the barcode union
(lines 194-211) and the union summary arithmetic (line 230).
-/

namespace MTGLink

/-! ## Quality acceptance, flank mode (mtglink.py lines 461-475) -/

/-- Anchored regex match for the two patterns of mtglink.py line 467,
`re.match` with a pattern of the shape `^.*Quality XYZ$` where X, Y, Z are
one-character classes.  On a subject without a newline this matches exactly
when the subject ends in an 11-character suffix `Quality ` followed by three
characters, one from each class (`.*` absorbs any leading characters). -/
def matchQuality (s : String) (p1 p2 p3 : Char → Bool) : Bool :=
  let cs := s.toList
  decide (11 ≤ cs.length) &&
    ((cs.drop (cs.length - 11)).take 8 == "Quality ".toList) &&
    (match (cs.drop (cs.length - 11)).drop 8 with
     | [c1, c2, c3] => p1 c1 && p2 c2 && p3 c3
     | _ => false)

/-- The character class `[AB]` of the patterns at mtglink.py line 467. -/
def isAB (c : Char) : Bool := c == 'A' || c == 'B'

/-- mtglink.py line 463: `record.description = "Quality " + str(quality_gapfilled_seq)`
where the composite grade is the three characters
`min(quality_ext_left) + min(quality_ext_right) + min(quality_revcomp)`. -/
def recordDescription (l r s : Char) : String := "Quality " ++ String.mk [l, r, s]

/-- mtglink.py line 467, the flank-mode acceptance test:
`(len(seq) > 2*ext) and (re.match('^.*Quality A[AB]\x7b2\x7d$', d) or
re.match('^.*Quality BA[AB]$', d))` on the description `d` built at line 463. -/
def flankAccept (seqLen ext : Nat) (l r s : Char) : Bool :=
  decide (seqLen > 2 * ext) &&
    (matchQuality (recordDescription l r s) (fun c => c == 'A') isAB isAB ||
     matchQuality (recordDescription l r s) (fun c => c == 'B') (fun c => c == 'A') isAB)

/-! ## The parameter sweep of `gapfilling` (mtglink.py lines 245-527)

The sweep is modelled as a fold over the configured k-mer list (outer loop,
line 245) and abundance list (inner loop, line 274).  What MindTheGap and the
alignment-statistics stage produce at a given (k, a) is abstracted into an
environment `env : Nat → Nat → MtgResult`; everything the Python code then
does with it - including the exceptions it can raise - is embedded below.
A Python local variable that may be unbound is modelled as an `Option`;
reading it while `none` produces the corresponding `NameError`. -/

/-- One record of the per-candidate evaluation loop (mtglink.py lines
385-475): the strand character parsed at line 388 (`'1'` for a `bkpt1`
forward candidate, `'2'` for a `bkpt2` reverse candidate) and whether the
acceptance test of line 467 (resp. 422) succeeded. -/
structure EvalRecord where
  strand : Char
  accepted : Bool
deriving DecidableEq

/-- mtglink.py lines 423/428 and 468/474: the string appended to `solutions`
for one evaluated candidate (`"True_" + strand` or `"False_" + strand`). -/
def checkStr (r : EvalRecord) : String :=
  (if r.accepted then "True_" else "False_") ++ String.mk [r.strand]

/-- An entry of the Python list `output_for_gfa`: either the GFA output of an
accepted candidate (line 470-471, `get_output_for_gfa` abstracted to its
strand tag) or the original gap line appended at line 517. -/
inductive GfaItem where
  | sol : Char → GfaItem
  | gapLine : GfaItem
deriving DecidableEq

/-- Outcome of one MindTheGap invocation at a given (k, a) as observed by
mtglink.py lines 290-366:
* `missingArtifact`: the `.insertions.fasta` artifact does not exist, so
  `os.path.getsize` at line 293 raises `OSError`;
* `emptyArtifact`: the artifact exists with size 0 (zero candidates), the
  `else` branch at lines 498-504 runs;
* `candidatesNoStats`: the artifact is non-empty but one of the two
  alignment-stats files is missing (lines 358-363, `stats = False`);
* `candidatesStats recs`: the artifact is non-empty, both stats files exist,
  and the evaluation loop classifies the candidates as `recs`. -/
inductive MtgResult where
  | missingArtifact : MtgResult
  | emptyArtifact : MtgResult
  | candidatesNoStats : MtgResult
  | candidatesStats : List EvalRecord → MtgResult
deriving DecidableEq

/-- Python `s and b` for a string `s` and a boolean `b`: the result is truthy
exactly when `s` is non-empty and `b` is true. -/
def pyStrAnd (s : String) (b : Bool) : Bool := !s.isEmpty && b

/-- mtglink.py line 488: `(stats == True) and ("True_1" and "True_2" in solutions)`.
Python parses the second conjunct as `"True_1" and ("True_2" in solutions)`
(the `in` operator binds tighter than `and`), and a non-empty string literal
is truthy, so the condition reduces to `stats and ("True_2" in solutions)`. -/
def stopCondition (stats : Bool) (solutions : List String) : Bool :=
  stats && pyStrAnd "True_1" (solutions.contains "True_2")

/-- The both-strands-accepted query described by the specification for
StrandReconciler: at least one accepted forward candidate (`"True_1"`) and at
least one accepted reverse candidate (`"True_2"`). -/
def bothStrandsAccepted (solutions : List String) : Bool :=
  solutions.contains "True_1" && solutions.contains "True_2"

/-- The mutable locals of `gapfilling` that survive between loop iterations:
`output_for_gfa` (lines 382, 471, 499, 517) and `solution` (lines 489, 493,
504).  `none` models a local that has never been assigned. -/
structure SweepSt where
  outputForGfa : Option (List GfaItem)
  solution : Option Bool
deriving DecidableEq

/-- Locals at entry of `gapfilling`: nothing assigned yet. -/
def initSt : SweepSt := ⟨none, none⟩

/-- Python `min` over a list of ints as used at mtglink.py line 513 (the
lists are non-empty whenever the call is reached). -/
def pyMin : List Nat → Nat
  | [] => 0
  | x :: xs => xs.foldl Nat.min x

/-- A visited (k, a) pair together with the `solutions` list computed by the
evaluation block, when that block ran (`none` otherwise). -/
abbrev TraceEntry := Nat × Nat × Option (List String)

/-- The inner abundance loop (mtglink.py lines 274-504) for a fixed k.
Result: the Python outcome - an exception name, or the locals together with
the final value of the loop variable `a` and whether the `break` at line 490
fired - paired with the trace of visited (k, a) pairs. -/
def innerLoop (env : Nat → Nat → MtgResult) (k : Nat) :
    List Nat → SweepSt → Option Nat →
      Except String (SweepSt × Option Nat × Bool) × List TraceEntry
  | [], st, lastA => (.ok (st, lastA, false), [])
  | a :: rest, st, _ =>
    match env k a with
    | .missingArtifact =>
      (.error "OSError", [(k, a, none)])
    | .emptyArtifact =>
      let r := innerLoop env k rest ⟨some [], some false⟩ (some a)
      (r.1, (k, a, none) :: r.2)
    | .candidatesNoStats =>
      let r := innerLoop env k rest ⟨st.outputForGfa, some false⟩ (some a)
      (r.1, (k, a, none) :: r.2)
    | .candidatesStats recs =>
      if stopCondition true (recs.map checkStr) then
        (.ok (⟨some ((recs.filter (fun x => x.accepted)).map (fun x => GfaItem.sol x.strand)),
               some true⟩, some a, true),
         [(k, a, some (recs.map checkStr))])
      else
        let r := innerLoop env k rest
          ⟨some ((recs.filter (fun x => x.accepted)).map (fun x => GfaItem.sol x.strand)),
           some false⟩ (some a)
        (r.1, (k, a, some (recs.map checkStr)) :: r.2)

/-- Outcome of the code between one inner loop and the next k iteration. -/
inductive StepOut where
  | err : String → StepOut
  | halt : SweepSt → StepOut
  | next : SweepSt → StepOut
deriving DecidableEq

/-- mtglink.py lines 507-517, executed after each inner loop: the early
`break` out of the k loop (line 507-508, unless `force`), and the
exhaustion check appending the original gap line (lines 513-517).  Reading
the possibly-unbound locals `solution`, `a` and `output_for_gfa` raises
`NameError`. -/
def afterInner (force : Bool) (kmin amin k : Nat) :
    SweepSt × Option Nat × Bool → StepOut
  | (st, lastA, _) =>
    match st.solution with
    | none => .err "NameError: solution"
    | some sol =>
      if sol && !force then .halt st
      else
        match lastA with
        | none => .err "NameError: a"
        | some a =>
          if k == kmin && a == amin then
            match st.outputForGfa with
            | none => .err "NameError: output_for_gfa"
            | some out =>
              .next ⟨some (if out.length == 0 then out ++ [GfaItem.gapLine] else out),
                     st.solution⟩
          else .next st

/-- The outer k-mer loop (mtglink.py lines 245-517). -/
def outerLoop (env : Nat → Nat → MtgResult) (force : Bool) (as_ : List Nat)
    (kmin amin : Nat) :
    List Nat → SweepSt → Except String SweepSt × List TraceEntry
  | [], st => (.ok st, [])
  | k :: rest, st =>
    let r := innerLoop env k as_ st none
    match r.1 with
    | .error e => (.error e, r.2)
    | .ok t =>
      match afterInner force kmin amin k t with
      | .err e => (.error e, r.2)
      | .halt st2 => (.ok st2, r.2)
      | .next st2 =>
        let r2 := outerLoop env force as_ kmin amin rest st2
        (r2.1, r.2 ++ r2.2)

/-- The observable result of `gapfilling` for one gap (mtglink.py lines
245-527): the `output_for_gfa` list returned at line 527, or the exception
escaping the call (which the top-level handler at lines 606-612 turns into
`sys.exit(1)` for the whole run). -/
def gapfilling (env : Nat → Nat → MtgResult) (force : Bool)
    (ks as_ : List Nat) : Except String (List GfaItem) :=
  match (outerLoop env force as_ (pyMin ks) (pyMin as_) ks initSt).1 with
  | .error e => .error e
  | .ok st =>
    match st.outputForGfa with
    | none => .error "NameError: output_for_gfa"
    | some out => .ok out

/-- The trace of (k, a) iterations actually executed, in order, with the
`solutions` list when the evaluation block ran. -/
def sweepTrace (env : Nat → Nat → MtgResult) (force : Bool)
    (ks as_ : List Nat) : List TraceEntry :=
  (outerLoop env force as_ (pyMin ks) (pyMin as_) ks initSt).2

/-- The (k, a) pairs at which MindTheGap is invoked (mtglink.py line 290),
in invocation order. -/
def visitedPairs (env : Nat → Nat → MtgResult) (force : Bool)
    (ks as_ : List Nat) : List (Nat × Nat) :=
  (sweepTrace env force ks as_).map (fun e => (e.1, e.2.1))

/-- Strict lexicographically-descending order on visited (k, a) pairs:
larger k first, and for equal k larger a first. -/
def lexDescK (p q : Nat × Nat) : Prop :=
  q.1 < p.1 ∨ (p.1 = q.1 ∧ q.2 < p.2)

instance : DecidableRel lexDescK := fun p q =>
  inferInstanceAs (Decidable (q.1 < p.1 ∨ (p.1 = q.1 ∧ q.2 < p.2)))

instance : IsTrans (Nat × Nat) lexDescK :=
  ⟨by
    rintro a b c (h1 | ⟨h1, h1'⟩) (h2 | ⟨h2, h2'⟩)
    · exact Or.inl (lt_trans h2 h1)
    · exact Or.inl (h2 ▸ h1)
    · exact Or.inl (h1 ▸ h2)
    · exact Or.inr ⟨h1.trans h2, lt_trans h2' h1'⟩⟩

/-! ## Top-level GFA output and task dispatch (mtglink.py lines 533-581) -/

/-- A line of a GFA 2.0 file, classified the way `gfapy` exposes it to
mtglink.py: gap lines (`gfa.gaps`), segment lines (`gfa.segments`), header
lines, and any other line kind (edges, fragments, ...). -/
inductive GfaLine where
  | header : String → GfaLine
  | segment : String → GfaLine
  | gap : String → GfaLine
  | other : String → GfaLine
deriving DecidableEq

/-- Whether a line is a gap (`G`) line. -/
def isGapLine : GfaLine → Bool
  | .gap _ => true
  | _ => false

/-- Whether a line is a segment (`S`) line. -/
def isSegmentLine : GfaLine → Bool
  | .segment _ => true
  | _ => false

/-- mtglink.py lines 543-560: the content of the output GFA file after the
two initial write blocks, before any gap results are merged in (`none` when
neither block ran and the file was never written).  The first block (lines
543-548) copies every input line when the input has no gap line; the second
block (lines 554-560) runs whenever `-line` was not provided - its guard is
only `args.line is None` - and overwrites the file with a fresh header and
the segment lines only. -/
def initialOutGfa (gfaLines : List GfaLine) (lineArg : Option Nat) :
    Option (List GfaLine) :=
  let afterNoGapBlock : Option (List GfaLine) :=
    if (gfaLines.filter isGapLine).length == 0 then some gfaLines else none
  if lineArg.isNone then
    some (GfaLine.header "VN:Z:2.0" :: gfaLines.filter isSegmentLine)
  else afterNoGapBlock

/-- mtglink.py lines 562-575: the list of gap lines handed to the worker
pool by `p.map(gapfilling, gaps)`; with `-line` the gap list is sliced from
`args.line - (len(gfa.segments) + 2)` on. -/
def dispatchedGaps (gfaLines : List GfaLine) (lineArg : Option Nat) :
    List GfaLine :=
  match lineArg with
  | some line =>
    (gfaLines.filter isGapLine).drop (line - ((gfaLines.filter isSegmentLine).length + 2))
  | none => gfaLines.filter isGapLine

/-! ## Reference-file selection (mtglink.py lines 311-349) -/

/-- One entry of `os.listdir(refDir)` as tested by mtglink.py lines 312-315:
its name, whether `str(gap_label) in file_` holds (line 313), and whether
`os.path.isfile` holds for it (lines 315 and 343). -/
structure DirEntry where
  name : String
  matchesLabel : Bool
  isFile : Bool
deriving DecidableEq

/-- The reference used for the quality evaluation of one (k, a) iteration. -/
inductive RefChoice where
  | refFile : String → RefChoice
  | flankFile : RefChoice
deriving DecidableEq

/-- mtglink.py lines 311-349: selection of `ref_file`.  With `-refDir`
(argument `some files`), the loop at lines 312-314 rebinds `ref_file` to each
listing entry containing the gap label, so the last match wins, and when no
entry matches, `ref_file` is read unbound at line 315 (`NameError`).  The
`elif` at line 319 is evaluated only when `args.refDir is None`, so the
flank-based reference (lines 321-341) is built exactly in that case.
The boolean in the result records whether `stats_align` runs (line 349:
only when `os.path.isfile(ref_file)` at line 343). -/
def selectRef (refDir : Option (List DirEntry)) :
    Except String (RefChoice × Bool) :=
  match refDir with
  | some files =>
    match (files.filter (fun f => f.matchesLabel)).getLast? with
    | none => .error "NameError: ref_file"
    | some f => .ok (.refFile f.name, f.isFile)
  | none => .ok (.flankFile, true)

/-! ## Barcode union (mtglink.py lines 194-211) -/

/-- Python dict accumulation `d[b] = d.get(b, 0) + n` on an association
list keyed by barcode: increment the existing entry or append a new one. -/
def addOcc : List (String × Nat) → String → Nat → List (String × Nat)
  | [], b, n => [(b, n)]
  | p :: rest, b, n =>
    if p.1 == b then (p.1, p.2 + n) :: rest else p :: addOcc rest b n

/-- Modelled from the spec: `extract_barcodes` (helpers module, not under
`src/`) - spec section 4.2: "accumulate occurrence counts per barcode across
both region calls into one mapping".  A region is a list of per-barcode
occurrence counts; each is added into the shared mapping `barcodes_occ`
passed by mtglink.py lines 199 and 203. -/
def extract_barcodes (region : List (String × Nat))
    (occ : List (String × Nat)) : List (String × Nat) :=
  region.foldl (fun o p => addOcc o p.1 p.2) occ

/-- mtglink.py lines 194-211: accumulate both regions into `barcodes_occ`
(lines 195-203) and write to the union file every barcode whose count
satisfies `occurences >= args.freq` (lines 209-211). -/
def unionBarcodes (left right : List (String × Nat)) (freq : Nat) :
    List String :=
  ((extract_barcodes right (extract_barcodes left [])).filter
      (fun p => decide (freq ≤ p.2))).map (fun p => p.1)

/-- Total occurrence count recorded for barcode `b` in a list of
(barcode, count) entries. -/
def totalOcc (l : List (String × Nat)) (b : String) : Nat :=
  ((l.filter (fun p => p.1 == b)).map (fun p => p.2)).sum

/-! ## Union summary arithmetic (mtglink.py line 230) -/

/-- mtglink.py line 230: `rbxu = sum(1 for line in open(union_reads_file))/4`
- Python 3 true division of the union reads file line count by 4, kept
exact as a rational. -/
def rbxuValue (lineCount : Nat) : ℚ := (lineCount : ℚ) / 4

/-! ## Supporting lemmas -/

/-- On the 11-character description built at line 463 the anchored match
reduces to testing the three grade characters. -/
theorem matchQuality_recordDescription (l r s : Char) (p1 p2 p3 : Char → Bool) :
    matchQuality (recordDescription l r s) p1 p2 p3 = (p1 l && p2 r && p3 s) := rfl

theorem mem_of_head? {α : Type _} {l : List α} {x : α} (h : x ∈ l.head?) : x ∈ l := by
  cases l with
  | nil => cases h
  | cons a t =>
    have hxa : a = x := by simpa using h
    subst hxa
    exact List.mem_cons_self a t

theorem mem_of_getLast? {α : Type _} {l : List α} {x : α} (h : x ∈ l.getLast?) : x ∈ l := by
  rcases List.mem_getLast?_eq_getLast h with ⟨hne, rfl⟩
  exact List.getLast_mem hne

/-- C3 main acceptance equivalence, the ∀-part of the claim theorem is
factored here for reuse in its truth-table instances. -/
theorem flankAccept_eq (seqLen ext : Nat) (l r s : Char) :
    flankAccept seqLen ext l r s = true ↔
      (2 * ext < seqLen ∧
        ((l = 'A' ∧ (r = 'A' ∨ r = 'B') ∧ (s = 'A' ∨ s = 'B')) ∨
         (l = 'B' ∧ r = 'A' ∧ (s = 'A' ∨ s = 'B')))) := by
  rw [flankAccept, matchQuality_recordDescription, matchQuality_recordDescription]
  simp only [isAB, Bool.and_eq_true, Bool.or_eq_true, decide_eq_true_iff, beq_iff_eq,
    gt_iff_lt]
  tauto

/-- Every `solutions` list recorded by an inner loop run is computed from the
environment answer of its own (k, a) alone. -/
theorem innerLoop_sols_mem (env : Nat → Nat → MtgResult) (k : Nat) :
    ∀ (l : List Nat) (st : SweepSt) (la : Option Nat) (k' a : Nat) (sols : List String),
      (k', a, some sols) ∈ (innerLoop env k l st la).2 →
      k' = k ∧ ∃ recs, env k a = MtgResult.candidatesStats recs ∧ sols = recs.map checkStr := by
  intro l
  induction l with
  | nil => intro st la k' a sols h; simp [innerLoop] at h
  | cons a0 rest ih =>
    intro st la k' a sols h
    rcases henv : env k a0 with _ | _ | _ | recs
    · simp [innerLoop, henv] at h
    · simp only [innerLoop, henv, List.mem_cons] at h
      rcases h with h | h
      · simp at h
      · exact ih _ _ _ _ _ h
    · simp only [innerLoop, henv, List.mem_cons] at h
      rcases h with h | h
      · simp at h
      · exact ih _ _ _ _ _ h
    · by_cases hstop : stopCondition true (recs.map checkStr) = true
      · simp only [innerLoop, henv, hstop, if_true, List.mem_singleton] at h
        obtain ⟨hk, ha, hs⟩ : k' = k ∧ a = a0 ∧ some sols = some (recs.map checkStr) := by
          simpa [Prod.ext_iff] using h
        subst hk; subst ha
        exact ⟨rfl, recs, henv, Option.some.inj hs⟩
      · simp only [innerLoop, henv] at h
        rw [if_neg hstop] at h
        rcases List.mem_cons.1 h with h | h
        · obtain ⟨hk, ha, hs⟩ : k' = k ∧ a = a0 ∧ some sols = some (recs.map checkStr) := by
            simpa [Prod.ext_iff] using h
          subst hk; subst ha
          exact ⟨rfl, recs, henv, Option.some.inj hs⟩
        · exact ih _ _ _ _ _ h

/-- Every `solutions` list recorded by the whole sweep is computed from the
environment answer of its own (k, a) alone. -/
theorem outerLoop_sols_mem (env : Nat → Nat → MtgResult) (force : Bool)
    (as_ : List Nat) (kmin amin : Nat) :
    ∀ (ks : List Nat) (st : SweepSt) (k a : Nat) (sols : List String),
      (k, a, some sols) ∈ (outerLoop env force as_ kmin amin ks st).2 →
      ∃ recs, env k a = MtgResult.candidatesStats recs ∧ sols = recs.map checkStr := by
  intro ks
  induction ks with
  | nil => intro st k a sols h; simp [outerLoop] at h
  | cons k0 rest ih =>
    intro st k a sols h
    simp only [outerLoop] at h
    rcases hres : (innerLoop env k0 as_ st none).1 with e | t
    · rw [hres] at h
      dsimp only at h
      rcases innerLoop_sols_mem env k0 as_ st none k a sols h with ⟨hk, hc⟩
      exact hk ▸ hc
    · rw [hres] at h
      dsimp only at h
      rcases hstep : afterInner force kmin amin k0 t with e | st2 | st2 <;>
        rw [hstep] at h <;> dsimp only at h
      · rcases innerLoop_sols_mem env k0 as_ st none k a sols h with ⟨hk, hc⟩
        exact hk ▸ hc
      · rcases innerLoop_sols_mem env k0 as_ st none k a sols h with ⟨hk, hc⟩
        exact hk ▸ hc
      · rcases List.mem_append.1 h with h | h
        · rcases innerLoop_sols_mem env k0 as_ st none k a sols h with ⟨hk, hc⟩
          exact hk ▸ hc
        · exact ih _ _ _ _ h

/-- The (k, a) pairs visited by one inner loop run are an initial segment of
the configured abundance list, each paired with the loop k. -/
theorem innerLoop_trace_pairs (env : Nat → Nat → MtgResult) (k : Nat) :
    ∀ (l : List Nat) (st : SweepSt) (la : Option Nat),
      ∃ n, ((innerLoop env k l st la).2).map (fun e => (e.1, e.2.1)) =
        (l.take n).map (fun a => (k, a)) := by
  intro l
  induction l with
  | nil => intro st la; exact ⟨0, rfl⟩
  | cons a0 rest ih =>
    intro st la
    rcases henv : env k a0 with _ | _ | _ | recs
    · exact ⟨1, by simp [innerLoop, henv]⟩
    · obtain ⟨n, hn⟩ := ih ⟨some [], some false⟩ (some a0)
      exact ⟨n + 1, by simp [innerLoop, henv, hn]⟩
    · obtain ⟨n, hn⟩ := ih ⟨st.outputForGfa, some false⟩ (some a0)
      exact ⟨n + 1, by simp [innerLoop, henv, hn]⟩
    · by_cases hstop : stopCondition true (recs.map checkStr) = true
      · exact ⟨1, by simp [innerLoop, henv, hstop]⟩
      · obtain ⟨n, hn⟩ := ih
          ⟨some ((recs.filter (fun x => x.accepted)).map (fun x => GfaItem.sol x.strand)),
           some false⟩ (some a0)
        refine ⟨n + 1, ?_⟩
        simp only [innerLoop, henv]
        rw [if_neg hstop]
        simp [hn]

/-- The visited pairs of one inner loop run form a lexicographically
descending chain when the abundance list is strictly descending, and all
of them carry the loop k. -/
theorem innerPairs_chain (env : Nat → Nat → MtgResult) (k : Nat) (l : List Nat)
    (st : SweepSt) (la : Option Nat) (ha : List.Chain' (fun a b => a > b) l) :
    List.Chain' lexDescK (((innerLoop env k l st la).2).map (fun e => (e.1, e.2.1))) ∧
    ∀ p ∈ ((innerLoop env k l st la).2).map (fun e => (e.1, e.2.1)), p.1 = k := by
  obtain ⟨n, hn⟩ := innerLoop_trace_pairs env k l st la
  rw [hn]
  constructor
  · refine (List.chain'_map _).2 ?_
    refine List.Chain'.imp ?_ (ha.take n)
    intro a b hab
    exact Or.inr ⟨rfl, hab⟩
  · intro p hp
    rcases List.mem_map.1 hp with ⟨a, _, rfl⟩
    rfl

/-- The pairs visited by the whole sweep form a lexicographically descending
chain when both configured lists are strictly descending, and every visited
pair carries a k from the configured k list. -/
theorem outerLoop_trace_chain (env : Nat → Nat → MtgResult) (force : Bool)
    (as_ : List Nat) (kmin amin : Nat) :
    ∀ (ks : List Nat) (st : SweepSt),
      List.Pairwise (fun a b => a > b) ks → List.Chain' (fun a b => a > b) as_ →
      List.Chain' lexDescK
        (((outerLoop env force as_ kmin amin ks st).2).map (fun e => (e.1, e.2.1))) ∧
      ∀ p ∈ ((outerLoop env force as_ kmin amin ks st).2).map (fun e => (e.1, e.2.1)),
        p.1 ∈ ks := by
  intro ks
  induction ks with
  | nil => intro st _ _; exact ⟨by simp [outerLoop], by simp [outerLoop]⟩
  | cons k0 rest ih =>
    intro st hk ha
    rcases List.pairwise_cons.1 hk with ⟨hk0, hkrest⟩
    have hinner := innerPairs_chain env k0 as_ st none ha
    have hmem0 : ∀ p ∈ ((innerLoop env k0 as_ st none).2).map (fun e => (e.1, e.2.1)),
        p.1 ∈ k0 :: rest := fun p hp => (hinner.2 p hp) ▸ List.mem_cons_self k0 rest
    simp only [outerLoop]
    rcases hres : (innerLoop env k0 as_ st none).1 with e | t
    · exact ⟨hinner.1, hmem0⟩
    · dsimp only
      rcases hstep : afterInner force kmin amin k0 t with e | st2 | st2 <;> dsimp only
      · exact ⟨hinner.1, hmem0⟩
      · exact ⟨hinner.1, hmem0⟩
      · obtain ⟨ihc, ihm⟩ := ih st2 hkrest ha
        rw [List.map_append]
        constructor
        · refine List.Chain'.append hinner.1 ihc ?_
          intro x hx y hy
          have hxk : x.1 = k0 := hinner.2 x (mem_of_getLast? hx)
          have hyrest : y.1 ∈ rest := ihm y (mem_of_head? hy)
          exact Or.inl (hxk ▸ hk0 y.1 hyrest)
        · intro p hp
          rcases List.mem_append.1 hp with hp | hp
          · exact (hinner.2 p hp) ▸ List.mem_cons_self k0 rest
          · exact List.mem_cons_of_mem k0 (ihm p hp)

theorem totalOcc_cons (p : String × Nat) (l : List (String × Nat)) (b : String) :
    totalOcc (p :: l) b = (if p.1 == b then p.2 else 0) + totalOcc l b := by
  cases h : p.1 == b <;> simp [totalOcc, List.filter_cons, h]

theorem totalOcc_addOcc (occ : List (String × Nat)) (b' : String) (n : Nat) (b : String) :
    totalOcc (addOcc occ b' n) b = totalOcc occ b + (if b' == b then n else 0) := by
  induction occ with
  | nil =>
    cases h : b' == b <;> simp [addOcc, totalOcc_cons, totalOcc, h]
  | cons p rest ih =>
    by_cases h : p.1 == b'
    · have hpb : p.1 = b' := eq_of_beq h
      subst hpb
      cases hb : p.1 == b
      · simp [addOcc, totalOcc_cons, hb]
      · simp [addOcc, totalOcc_cons, hb]
        ring
    · simp only [addOcc]
      rw [if_neg h, totalOcc_cons, totalOcc_cons, ih]
      ring

theorem mem_keys_addOcc (occ : List (String × Nat)) (b' : String) (n : Nat) (b : String) :
    b ∈ (addOcc occ b' n).map Prod.fst ↔ b ∈ occ.map Prod.fst ∨ b = b' := by
  induction occ with
  | nil => simp [addOcc]
  | cons p rest ih =>
    by_cases h : p.1 == b'
    · have hpb : p.1 = b' := eq_of_beq h
      subst hpb
      simp only [addOcc, h, if_true]
      simp
      tauto
    · simp only [addOcc]
      rw [if_neg (by simpa using h)]
      simp [ih]
      tauto

theorem nodupKeys_addOcc (occ : List (String × Nat)) (b' : String) (n : Nat)
    (h : (occ.map Prod.fst).Nodup) : ((addOcc occ b' n).map Prod.fst).Nodup := by
  induction occ with
  | nil => simp [addOcc]
  | cons p rest ih =>
    simp only [List.map_cons, List.nodup_cons] at h
    by_cases hb : p.1 == b'
    · simpa [addOcc, hb] using h
    · simp only [addOcc]
      rw [if_neg (by simpa using hb)]
      simp only [List.map_cons, List.nodup_cons]
      refine ⟨?_, ih h.2⟩
      rw [mem_keys_addOcc]
      rintro (hc | hc)
      · exact h.1 hc
      · exact (by simpa using hb : p.1 ≠ b') hc

theorem totalOcc_extract (r : List (String × Nat)) :
    ∀ (occ : List (String × Nat)) (b : String),
      totalOcc (extract_barcodes r occ) b = totalOcc occ b + totalOcc r b := by
  induction r with
  | nil => intro occ b; simp [extract_barcodes, totalOcc]
  | cons p rest ih =>
    intro occ b
    have hstep : extract_barcodes (p :: rest) occ =
        extract_barcodes rest (addOcc occ p.1 p.2) := rfl
    rw [hstep, ih, totalOcc_addOcc, totalOcc_cons]
    ring

theorem mem_keys_extract (r : List (String × Nat)) :
    ∀ (occ : List (String × Nat)) (b : String),
      b ∈ (extract_barcodes r occ).map Prod.fst ↔
        b ∈ occ.map Prod.fst ∨ b ∈ r.map Prod.fst := by
  induction r with
  | nil => intro occ b; simp [extract_barcodes]
  | cons p rest ih =>
    intro occ b
    have hstep : extract_barcodes (p :: rest) occ =
        extract_barcodes rest (addOcc occ p.1 p.2) := rfl
    rw [hstep, ih, mem_keys_addOcc]
    simp
    tauto

theorem nodupKeys_extract (r : List (String × Nat)) :
    ∀ (occ : List (String × Nat)), (occ.map Prod.fst).Nodup →
      ((extract_barcodes r occ).map Prod.fst).Nodup := by
  induction r with
  | nil => intro occ h; exact h
  | cons p rest ih =>
    intro occ h
    exact ih (addOcc occ p.1 p.2) (nodupKeys_addOcc occ p.1 p.2 h)

theorem totalOcc_eq_zero_of_not_mem (l : List (String × Nat)) (b : String)
    (h : b ∉ l.map Prod.fst) : totalOcc l b = 0 := by
  induction l with
  | nil => rfl
  | cons p rest ih =>
    simp only [List.map_cons, List.mem_cons] at h
    push_neg at h
    rw [totalOcc_cons]
    have : (p.1 == b) = false := by
      simpa using (Ne.symm h.1)
    simp [this, ih h.2]

theorem snd_eq_totalOcc_of_mem (occ : List (String × Nat))
    (hn : (occ.map Prod.fst).Nodup) (b : String) (c : Nat)
    (hm : (b, c) ∈ occ) : c = totalOcc occ b := by
  induction occ with
  | nil => cases hm
  | cons p rest ih =>
    simp only [List.map_cons, List.nodup_cons] at hn
    rcases List.mem_cons.1 hm with heq | hmem
    · have hp : p = (b, c) := heq.symm
      subst hp
      rw [totalOcc_cons]
      have hz : totalOcc rest b = 0 := totalOcc_eq_zero_of_not_mem rest b hn.1
      simp [hz]
    · have hbmem : b ∈ rest.map Prod.fst :=
        List.mem_map.2 ⟨(b, c), hmem, rfl⟩
      have hne : (p.1 == b) = false := by
        simp only [beq_eq_false_iff_ne, ne_eq]
        intro he
        exact hn.1 (he ▸ hbmem)
      rw [totalOcc_cons, hne]
      simpa using ih hn.2 hmem

/-! ## Claim theorems -/

/-- C1: with the force flag unset, the early-stop check of the sweep
(mtglink.py line 488) fires after an a-iteration whose only accepted
candidate is tagged reverse (`bkpt2`, check string `True_2`) while the
forward candidate was rejected: the sweep returns after visiting only
(51, 3) (no other pair is evaluated: every other pair of the environment
would raise), although the both-strands-accepted condition of the claim is
false for that iteration's solutions list.  The condition
`"True_1" and "True_2" in solutions` tests only the reverse strand. -/
theorem stop_check_ignores_forward_strand :
    gapfilling (fun k a =>
        if k == 51 && a == 3 then MtgResult.candidatesStats [⟨'2', true⟩, ⟨'1', false⟩]
        else MtgResult.missingArtifact) false [51, 41, 31, 21] [3, 2] =
      Except.ok [GfaItem.sol '2'] ∧
    visitedPairs (fun k a =>
        if k == 51 && a == 3 then MtgResult.candidatesStats [⟨'2', true⟩, ⟨'1', false⟩]
        else MtgResult.missingArtifact) false [51, 41, 31, 21] [3, 2] = [(51, 3)] ∧
    stopCondition true ["True_2", "False_1"] = true ∧
    bothStrandsAccepted ["True_2", "False_1"] = false :=
  ⟨rfl, rfl, rfl, rfl⟩

/-- C2 counterexample: a forward candidate is accepted at (51, 3)
(solutions list `["True_1"]`), yet at the very next pair (51, 2) the
recorded solutions list is `["False_2"]`, which no longer contains
`"True_1"`: the per-strand acceptance state does not persist across
(k, a) iterations. -/
theorem solutions_reset_between_pairs :
    (sweepTrace (fun k a =>
        if k == 51 && a == 3 then MtgResult.candidatesStats [⟨'1', true⟩]
        else if k == 51 && a == 2 then MtgResult.candidatesStats [⟨'2', false⟩]
        else MtgResult.emptyArtifact) false [51, 41, 31, 21] [3, 2]).take 2 =
      [(51, 3, some ["True_1"]), (51, 2, some ["False_2"])] ∧
    (["False_2"] : List String).contains "True_1" = false :=
  ⟨rfl, rfl⟩

/-- C2 (amended): the `solutions` list is reinitialized at every (k, a)
iteration whose candidates are evaluated: any solutions list recorded by the
sweep is computed from that iteration's assembler/stats outcome alone, so no
acceptance from an earlier (k, a) pair is visible to the termination
check. -/
theorem solutions_from_current_pair_only (env : Nat → Nat → MtgResult)
    (force : Bool) (ks as_ : List Nat) (k a : Nat) (sols : List String)
    (h : (k, a, some sols) ∈ sweepTrace env force ks as_) :
    ∃ recs, env k a = MtgResult.candidatesStats recs ∧ sols = recs.map checkStr :=
  outerLoop_sols_mem env force as_ (pyMin ks) (pyMin as_) ks initSt k a sols h

/-- C2 witness: the amended theorem applied at the concrete trace of the
counterexample environment, at pair (51, 2). -/
theorem solutions_from_current_pair_only_w :
    ∃ recs, (fun k a =>
        if k == 51 && a == 3 then MtgResult.candidatesStats [⟨'1', true⟩]
        else if k == 51 && a == 2 then MtgResult.candidatesStats [⟨'2', false⟩]
        else MtgResult.emptyArtifact : Nat → Nat → MtgResult) 51 2 =
        MtgResult.candidatesStats recs ∧
      ["False_2"] = recs.map checkStr :=
  solutions_from_current_pair_only
    (fun k a =>
      if k == 51 && a == 3 then MtgResult.candidatesStats [⟨'1', true⟩]
      else if k == 51 && a == 2 then MtgResult.candidatesStats [⟨'2', false⟩]
      else MtgResult.emptyArtifact) false [51, 41, 31, 21] [3, 2] 51 2 ["False_2"]
    (by decide)

/-- C3: in flank mode a candidate is accepted iff its length strictly
exceeds twice the extension margin and its composite grade satisfies
(left = A and right in \x7bA, B\x7d and self in \x7bA, B\x7d) or (left = B and
right = A and self in \x7bA, B\x7d); in particular, with length 1001 and margin
500, composites AAA, ABA, BAA, BAB are accepted and BBA, ACA rejected. -/
theorem flank_acceptance_truth_table :
    (∀ seqLen ext l r s, flankAccept seqLen ext l r s = true ↔
      (2 * ext < seqLen ∧
        ((l = 'A' ∧ (r = 'A' ∨ r = 'B') ∧ (s = 'A' ∨ s = 'B')) ∨
         (l = 'B' ∧ r = 'A' ∧ (s = 'A' ∨ s = 'B'))))) ∧
    flankAccept 1001 500 'A' 'A' 'A' = true ∧
    flankAccept 1001 500 'A' 'B' 'A' = true ∧
    flankAccept 1001 500 'B' 'A' 'A' = true ∧
    flankAccept 1001 500 'B' 'A' 'B' = true ∧
    flankAccept 1001 500 'B' 'B' 'A' = false ∧
    flankAccept 1001 500 'A' 'C' 'A' = false :=
  ⟨flankAccept_eq, by decide, by decide, by decide, by decide, by decide, by decide⟩

/-- C4: for an input graph with zero gap lines and `-line` not provided, the
written output GFA is a fresh header plus the segment lines only: a non-gap
edge line of the input does not appear in the output (the overwrite at
mtglink.py lines 554-560 is guarded only by `args.line is None`), while the
dispatched gap-task list is indeed empty. -/
theorem no_gap_input_loses_non_segment_lines :
    initialOutGfa [GfaLine.header "VN:Z:2.0", GfaLine.segment "s1",
        GfaLine.other "e1", GfaLine.segment "s2"] none =
      some [GfaLine.header "VN:Z:2.0", GfaLine.segment "s1", GfaLine.segment "s2"] ∧
    GfaLine.other "e1" ∈ [GfaLine.header "VN:Z:2.0", GfaLine.segment "s1",
        GfaLine.other "e1", GfaLine.segment "s2"] ∧
    GfaLine.other "e1" ∉ [GfaLine.header "VN:Z:2.0", GfaLine.segment "s1",
        GfaLine.segment "s2"] ∧
    dispatchedGaps [GfaLine.header "VN:Z:2.0", GfaLine.segment "s1",
        GfaLine.other "e1", GfaLine.segment "s2"] none = [] :=
  ⟨rfl, by decide, by decide, rfl⟩

/-- C5 counterexample: when the insertions artifact of the very first
(k, a) pair is missing, `gapfilling` raises `OSError` immediately: no later
pair is visited and the gap (and run) aborts instead of continuing as the
zero-candidates case would. -/
theorem missing_artifact_aborts_sweep :
    gapfilling (fun _ _ => MtgResult.missingArtifact) false [51, 41, 31, 21] [3, 2] =
      Except.error "OSError" ∧
    visitedPairs (fun _ _ => MtgResult.missingArtifact) false [51, 41, 31, 21] [3, 2] =
      [(51, 3)] :=
  ⟨rfl, rfl⟩

/-- C5 (amended): a present-but-empty insertions artifact is the
zero-candidates case: an all-empty sweep over the default lists visits every
(k, a) pair and ends with the fallback gap line; a missing artifact instead
raises `OSError` at its (k, a) pair and aborts the gap's processing. -/
theorem empty_artifact_is_zero_candidates (env : Nat → Nat → MtgResult) (force : Bool)
    (h : ∀ k a, env k a = MtgResult.emptyArtifact) :
    gapfilling env force [51, 41, 31, 21] [3, 2] = Except.ok [GfaItem.gapLine] ∧
    visitedPairs env force [51, 41, 31, 21] [3, 2] =
      [(51, 3), (51, 2), (41, 3), (41, 2), (31, 3), (31, 2), (21, 3), (21, 2)] ∧
    ∀ env2 : Nat → Nat → MtgResult, env2 51 3 = MtgResult.missingArtifact →
      gapfilling env2 force [51, 41, 31, 21] [3, 2] = Except.error "OSError" := by
  have henv : env = fun _ _ => MtgResult.emptyArtifact :=
    funext fun k => funext fun a => h k a
  subst henv
  refine ⟨rfl, rfl, ?_⟩
  intro env2 h2
  simp [gapfilling, outerLoop, innerLoop, h2]

/-- C5 witness: the amended theorem at the all-empty environment. -/
theorem empty_artifact_is_zero_candidates_w :
    gapfilling (fun _ _ => MtgResult.emptyArtifact) false [51, 41, 31, 21] [3, 2] =
      Except.ok [GfaItem.gapLine] :=
  (empty_artifact_is_zero_candidates (fun _ _ => MtgResult.emptyArtifact) false
    (fun _ _ => rfl)).1

/-- C6 counterexample: with the configured k list [21, 31] the sweep visits
(21, 3), (21, 2), (31, 3), (31, 2) in that order, which is not strictly
descending in k: the code iterates the configured lists in the given order
and never sorts them. -/
theorem sweep_follows_configured_list_order :
    visitedPairs (fun _ _ => MtgResult.emptyArtifact) false [21, 31] [3, 2] =
      [(21, 3), (21, 2), (31, 3), (31, 2)] ∧
    ¬ List.Chain' lexDescK [(21, 3), (21, 2), (31, 3), (31, 2)] := by
  refine ⟨rfl, ?_⟩
  intro hc
  have h2 : lexDescK (21, 2) (31, 3) := (List.chain'_cons.1 (List.chain'_cons.1 hc).2).1
  exact absurd h2 (by decide)

/-- C6 (amended): whenever the configured k list and abundance list are both
strictly descending (as the defaults [51, 41, 31, 21] and [3, 2] are), the
visited (k, a) pairs are strictly lexicographically descending - descending
k, and descending a within each k - and no pair is visited twice. -/
theorem sweep_descending_of_descending_lists (env : Nat → Nat → MtgResult)
    (force : Bool) (ks as_ : List Nat)
    (hk : List.Chain' (fun a b => a > b) ks)
    (ha : List.Chain' (fun a b => a > b) as_) :
    List.Chain' lexDescK (visitedPairs env force ks as_) ∧
    (visitedPairs env force ks as_).Nodup := by
  haveI : IsTrans Nat (fun a b => a > b) := ⟨fun _ _ _ h1 h2 => lt_trans h2 h1⟩
  have hkp : List.Pairwise (fun a b => a > b) ks := List.chain'_iff_pairwise.1 hk
  obtain ⟨hc, _⟩ :=
    outerLoop_trace_chain env force as_ (pyMin ks) (pyMin as_) ks initSt hkp ha
  refine ⟨hc, ?_⟩
  have hpw : List.Pairwise lexDescK (visitedPairs env force ks as_) :=
    List.chain'_iff_pairwise.1 hc
  refine List.Pairwise.imp ?_ hpw
  intro p q hpq heq
  subst heq
  rcases hpq with h1 | ⟨_, h2⟩
  · exact lt_irrefl _ h1
  · exact lt_irrefl _ h2

/-- C6 witness: the amended theorem at the default configuration and the
all-empty environment. -/
theorem sweep_descending_of_descending_lists_w :
    List.Chain' lexDescK
      (visitedPairs (fun _ _ => MtgResult.emptyArtifact) false [51, 41, 31, 21] [3, 2]) :=
  (sweep_descending_of_descending_lists (fun _ _ => MtgResult.emptyArtifact) false
    [51, 41, 31, 21] [3, 2] (by norm_num [List.chain'_cons])
    (by norm_num [List.chain'_cons])).1

/-- C7: when every (k, a) pair yields candidates but the alignment-stats
files are missing, `output_for_gfa` is never assigned, and the exhaustion
check at mtglink.py line 516 reads it unbound: `gapfilling` raises
`NameError` after visiting all eight default pairs, returning zero per-gap
outcomes instead of exactly one. -/
theorem missing_stats_everywhere_raises :
    gapfilling (fun _ _ => MtgResult.candidatesNoStats) false [51, 41, 31, 21] [3, 2] =
      Except.error "NameError: output_for_gfa" ∧
    visitedPairs (fun _ _ => MtgResult.candidatesNoStats) false [51, 41, 31, 21] [3, 2] =
      [(51, 3), (51, 2), (41, 3), (41, 2), (31, 3), (31, 2), (21, 3), (21, 2)] :=
  ⟨rfl, rfl⟩

/-- C8: in reference mode, when no listing entry of the reference directory
contains the gap label, `ref_file` is read unbound at mtglink.py line 315
and a `NameError` is raised; the flank-based reference is built only in the
`refDir is None` branch, so the claimed degradation never happens in
reference mode. -/
theorem missing_reference_raises :
    selectRef (some [⟨"otherGap.fasta", false, true⟩]) =
      Except.error "NameError: ref_file" ∧
    selectRef none = Except.ok (RefChoice.flankFile, true) :=
  ⟨rfl, rfl⟩

/-- C9: a barcode observed in the left or right region is written to the
union file iff its combined occurrence count accumulated across both region
extractions reaches the configured frequency threshold. -/
theorem union_barcode_retention (left right : List (String × Nat)) (freq : Nat)
    (b : String)
    (hobs : b ∈ left.map Prod.fst ∨ b ∈ right.map Prod.fst) :
    b ∈ unionBarcodes left right freq ↔
      freq ≤ totalOcc left b + totalOcc right b := by
  have hnd : ((extract_barcodes right (extract_barcodes left [])).map Prod.fst).Nodup :=
    nodupKeys_extract right (extract_barcodes left [])
      (nodupKeys_extract left [] (by simp))
  have htot : totalOcc (extract_barcodes right (extract_barcodes left [])) b =
      totalOcc left b + totalOcc right b := by
    rw [totalOcc_extract, totalOcc_extract]
    simp [totalOcc]
  have hkey : b ∈ (extract_barcodes right (extract_barcodes left [])).map Prod.fst := by
    rw [mem_keys_extract, mem_keys_extract]
    simp only [List.not_mem_nil, List.map_nil, false_or]
    tauto
  simp only [unionBarcodes]
  constructor
  · intro hmem
    rcases List.mem_map.1 hmem with ⟨p, hp, hpb⟩
    rcases List.mem_filter.1 hp with ⟨hpocc, hfreq⟩
    have hval : p.2 = totalOcc (extract_barcodes right (extract_barcodes left [])) p.1 :=
      snd_eq_totalOcc_of_mem _ hnd p.1 p.2 (by simpa using hpocc)
    have hpb' : p.1 = b := hpb
    subst hpb'
    rw [← htot, ← hval]
    simpa using hfreq
  · intro hfreq
    rcases List.mem_map.1 hkey with ⟨p, hpocc, hpb⟩
    refine List.mem_map.2 ⟨p, List.mem_filter.2 ⟨hpocc, ?_⟩, hpb⟩
    have hval : p.2 = totalOcc (extract_barcodes right (extract_barcodes left [])) p.1 :=
      snd_eq_totalOcc_of_mem _ hnd p.1 p.2 (by simpa using hpocc)
    simp only [decide_eq_true_iff]
    have hpb' : p.1 = b := hpb
    subst hpb'
    rw [hval, htot]
    exact hfreq

/-- C9 witness: with threshold 2, per-region counts 3 and 1 (combined 4)
retain the barcode; counts 1 and 0 (combined 1) drop it. -/
theorem union_barcode_retention_w :
    ("b" ∈ unionBarcodes [("b", 3)] [("b", 1)] 2) ∧
    ¬ ("b" ∈ unionBarcodes [("b", 1)] [] 2) :=
  ⟨(union_barcode_retention [("b", 3)] [("b", 1)] 2 "b" (Or.inl (by decide))).2
      (by decide),
   fun hmem =>
     absurd ((union_barcode_retention [("b", 1)] [] 2 "b" (Or.inl (by decide))).1 hmem)
       (by decide)⟩

/-- C10: the Nb_reads value is the exact true division of the union reads
file line count by 4 (four times the value gives back the line count), and
it is not an integer whenever the line count is not a multiple of 4. -/
theorem rbxu_true_division_nonintegral (n : Nat) (h : n % 4 ≠ 0) :
    4 * rbxuValue n = (n : ℚ) ∧ ¬ ∃ z : ℤ, rbxuValue n = (z : ℚ) := by
  constructor
  · rw [rbxuValue]
    field_simp
  · rintro ⟨z, hz⟩
    rw [rbxuValue, div_eq_iff (by norm_num : (4 : ℚ) ≠ 0)] at hz
    have hzz : (n : ℤ) = z * 4 := by exact_mod_cast hz
    have hdvd : (4 : ℕ) ∣ n := by
      have h4 : ((4 : ℕ) : ℤ) ∣ (n : ℤ) := ⟨z, by rw [hzz]; ring⟩
      exact_mod_cast h4
    obtain ⟨m, rfl⟩ := hdvd
    simp [Nat.mul_mod_right] at h

/-- C10 witness: a 5-line reads file gives the non-integral value 5/4. -/
theorem rbxu_true_division_nonintegral_w :
    4 * rbxuValue 5 = (5 : ℚ) ∧ ¬ ∃ z : ℤ, rbxuValue 5 = (z : ℚ) :=
  rbxu_true_division_nonintegral 5 (by decide)

end MTGLink
